import Mathlib

/-!
Shallow embedding of the scorpius-rag core, for checking the natural-language
specification against the code.

Embedded components and their source files:
* EmbeddingCache (src/utils/embedding_cache.py): get / set / validation /
  TTL expiry / size-triggered eviction of oldest entries.
* OpenAIEmbeddingService.embed (src/services/openai_embedding_service.py):
  cache-hit bookkeeping and reassembly of provider results.
* ScorpiusRAGEngine (src/core/scorpius_rag_engine.py): search input
  validation, result post-processing (distance-to-similarity conversion and
  similarity-floor filtering), contextual relevance scoring, search counters.

Modeling conventions: Python floats are modeled as rationals; on-disk pickled
payloads are modeled by an inductive type of Python values; the SHA-256 cache
key and the MD5 content hash are modeled by injective stand-ins (collisions of
the real digests are out of scope); the filesystem is a list of file entries
carrying a modification time and a byte size; wall-clock time is an explicit
rational parameter (in hours, matching the TTL unit of the source).
-/

namespace Scorpius

/-- Accumulator pass behind pySplit: collect maximal runs of non-whitespace
characters (the accumulator holds the current run, reversed). -/
def pySplitGo : List Char → List Char → List (List Char)
  | acc, [] => if acc.isEmpty then [] else [acc.reverse]
  | acc, c :: cs =>
    if c.isWhitespace then
      (if acc.isEmpty then pySplitGo [] cs else acc.reverse :: pySplitGo [] cs)
    else pySplitGo (c :: acc) cs

/-- Python str.split() with no separator: split on runs of whitespace,
dropping empty pieces. -/
def pySplit (s : String) : List String :=
  (pySplitGo [] s.toList).map (fun cs => String.mk cs)

/-- Text normalization used by EmbeddingCache._get_cache_key:
" ".join(text.split()) collapses internal whitespace runs and strips the
ends. -/
def normalizeText (s : String) : String :=
  String.intercalate " " (pySplit s)

/-- True when the string is empty or entirely whitespace (Python:
not s or not s.strip()). -/
def pyBlank (s : String) : Bool :=
  s.toList.all Char.isWhitespace

/-- Injective model of hashlib.md5(text).hexdigest() used for the stored
content hash: the digest is keyed by the raw text, and distinct texts give
distinct digests (MD5 collisions are out of scope for these claims). -/
def md5Hex (s : String) : String :=
  s

/-- Cache key of EmbeddingCache._get_cache_key: SHA-256 over
"normalized_text|model", modeled injectively by the hashed content itself. -/
def cacheKey (text model : String) : String :=
  normalizeText text ++ "|" ++ model

/-- Python values, as far as the pickled cache payload needs them: numbers,
strings, lists and string-keyed dicts. A tampered or malformed payload is an
arbitrary value of this type. -/
inductive PyVal where
  | num (q : ℚ)
  | str (s : String)
  | list (xs : List PyVal)
  | dict (kvs : List (String × PyVal))

/-- Dict lookup (Python d[k] / d.get(k)), first binding wins. -/
def PyVal.lookup (kvs : List (String × PyVal)) (k : String) : Option PyVal :=
  (kvs.find? (fun kv => kv.1 = k)).map (fun kv => kv.2)

/-- Python isinstance(x, (int, float)). -/
def PyVal.isNum : PyVal → Bool
  | .num _ => true
  | _ => false

/-- View a looked-up value as a string, if it is one. -/
def PyVal.asStr : Option PyVal → Option String
  | some (.str s) => some s
  | _ => none

/-- EmbeddingCache._validate_cache_data, translated from the source:
require the four keys, the stored model to equal the requested model, the
stored text hash to equal the hash of the requested text, and the embedding
to be a non-empty list of numbers. A non-dict payload fails (in the source,
the membership test raises and the except branch returns False). -/
def validateCacheData (data : PyVal) (text model : String) : Bool :=
  match data with
  | .dict kvs =>
    (["text", "model", "embedding", "text_hash"].all
      (fun k => (PyVal.lookup kvs k).isSome))
    && (PyVal.asStr (PyVal.lookup kvs "model") == some model)
    && (PyVal.asStr (PyVal.lookup kvs "text_hash") == some (md5Hex text))
    && (match PyVal.lookup kvs "embedding" with
        | some (.list xs) => !xs.isEmpty && xs.all PyVal.isNum
        | _ => false)
  | _ => false

/-- One on-disk cache file: its key (which determines the sharded path), its
payload (none models a file whose pickle.load raises), its modification time
in hours, and its stat size in bytes. -/
structure FileEntry where
  key : String
  data : Option PyVal
  mtime : ℚ
  size : ℕ

/-- Cache configuration and filesystem contents. -/
structure CacheState where
  files : List FileEntry
  ttlHours : ℚ
  maxCacheSizeMB : ℚ

/-- Find the cache file for a key, if present. -/
def findFile (files : List FileEntry) (key : String) : Option FileEntry :=
  files.find? (fun f => f.key = key)

/-- Remove the cache file for a key (Path.unlink). -/
def removeFile (files : List FileEntry) (key : String) : List FileEntry :=
  files.filter (fun f => f.key ≠ key)

/-- Total cache size in MB (EmbeddingCache._get_cache_size_mb): sum of file
sizes divided by 1024 twice. -/
def totalMB (files : List FileEntry) : ℚ :=
  ((files.map (fun f => f.size)).sum : ℚ) / 1024 / 1024

/-- EmbeddingCache._is_cache_entry_valid for an entry known to exist:
the file is fresh while now < mtime + ttl_hours. -/
def entryFresh (s : CacheState) (now : ℚ) (f : FileEntry) : Bool :=
  decide (now < f.mtime + s.ttlHours)

/-- EmbeddingCache.get, translated from the source. Returns the value the
caller sees (the stored embedding list, or none for a miss) together with the
resulting state. The source's outer except-handler turns every raised error
into a None return, so the model is a total function; a payload of none
(unpicklable file) takes that handler's path. A found entry that fails
validation is unlinked before returning None. -/
def EmbeddingCache.get (s : CacheState) (now : ℚ) (text model : String) :
    Option PyVal × CacheState :=
  let key := cacheKey text model
  match findFile s.files key with
  | none => (none, s)
  | some f =>
    if entryFresh s now f then
      match f.data with
      | none => (none, s)
      | some data =>
        if validateCacheData data text model then
          (match data with
           | .dict kvs => PyVal.lookup kvs "embedding"
           | _ => none, s)
        else
          (none, { s with files := removeFile s.files key })
    else (none, s)

/-- The one cache-hit path of get: the entry exists, is fresh, loads, and
passes validation. -/
def entryOK (s : CacheState) (now : ℚ) (text model : String) : Bool :=
  match findFile s.files (cacheKey text model) with
  | none => false
  | some f =>
    entryFresh s now f &&
      (match f.data with
       | none => false
       | some d => validateCacheData d text model)

/-- The delete-and-miss path of get: a fresh entry is found and read but
fails validation. -/
def foundInvalid (s : CacheState) (now : ℚ) (text model : String) : Bool :=
  match findFile s.files (cacheKey text model) with
  | none => false
  | some f =>
    entryFresh s now f &&
      (match f.data with
       | none => false
       | some d => !validateCacheData d text model)

/-- Serialized size in bytes of pickling the embedding alone, as measured by
EmbeddingCache.set via len(pickle.dumps(embedding)): a pickled list of floats
costs 9 bytes per element (a BINFLOAT opcode plus an 8-byte IEEE payload)
plus constant framing overhead. -/
def pickledEmbeddingSize (embedding : List ℚ) : ℕ :=
  9 * embedding.length + 14

/-- Per-entry size ceiling hard-coded in EmbeddingCache.set: 10 MB. -/
def entrySizeLimit : ℕ :=
  10 * 1024 * 1024

/-- The cache_data dict EmbeddingCache.set pickles to disk. The cached_at
isoformat timestamp is modeled by the numeric clock. -/
def cacheDataFor (text model : String) (embedding : List ℚ) (now : ℚ) : PyVal :=
  .dict
    [("text", .str text),
     ("model", .str model),
     ("embedding", .list (embedding.map PyVal.num)),
     ("cached_at", .num now),
     ("text_hash", .str (md5Hex text)),
     ("embedding_dimension", .num embedding.length)]

/-- Stable sort of cache files by modification time, oldest first
(EmbeddingCache._cleanup_oldest_entries: cache_files.sort(key=mtime)). -/
def sortByMtime (files : List FileEntry) : List FileEntry :=
  List.insertionSort (fun a b => a.mtime ≤ b.mtime) files

/-- Deletion loop of EmbeddingCache._cleanup_oldest_entries over the
age-sorted list: stop as soon as the remaining total is within the target,
otherwise unlink the oldest file and continue. -/
def dropOldest (targetMB : ℚ) : List FileEntry → List FileEntry
  | [] => []
  | f :: rest =>
    if totalMB (f :: rest) ≤ targetMB then f :: rest
    else dropOldest targetMB rest

/-- EmbeddingCache._cleanup_oldest_entries: sort by age, then delete
oldest-first until the total size is within the target. -/
def cleanupOldestEntries (targetMB : ℚ) (files : List FileEntry) : List FileEntry :=
  dropOldest targetMB (sortByMtime files)

/-- EmbeddingCache._cleanup_if_needed: when the current total exceeds the
configured maximum, shrink to 80% of that maximum. -/
def cleanupIfNeeded (maxMB : ℚ) (files : List FileEntry) : List FileEntry :=
  if totalMB files > maxMB then cleanupOldestEntries (maxMB * (8 / 10)) files
  else files

/-- Outcome of EmbeddingCache.set: either a normal return with the resulting
state, or the one error the except-handler re-raises
(CacheError.size_limit_exceeded). -/
inductive SetOutcome where
  | ok (s : CacheState)
  | capacityError (s : CacheState)

/-- True exactly on the capacity-error outcome. -/
def SetOutcome.isCapacityError : SetOutcome → Bool
  | .ok _ => false
  | .capacityError _ => true

/-- State carried by either outcome. -/
def SetOutcome.state : SetOutcome → CacheState
  | .ok s => s
  | .capacityError s => s

/-- The file list right after EmbeddingCache.set writes its entry: the new
file replaces any previous file at the same key. fileSize is the stat size of
the written pickle. -/
def writtenFiles (s : CacheState) (now : ℚ) (text model : String)
    (embedding : List ℚ) (fileSize : ℕ) : List FileEntry :=
  { key := cacheKey text model
    data := some (cacheDataFor text model embedding now)
    mtime := now
    size := fileSize } :: removeFile s.files (cacheKey text model)

/-- EmbeddingCache.set, translated from the source. The size check on the
pickled embedding precedes the write; on overflow the raised CacheError
propagates (capacityError) with nothing written. writeFails injects any
other failure of the write path (mkdir, open, dump): the except-handler logs
it and returns normally with nothing written. A successful write is followed
by _cleanup_if_needed. -/
def EmbeddingCache.set (s : CacheState) (now : ℚ) (text model : String)
    (embedding : List ℚ) (fileSize : ℕ) (writeFails : Bool) : SetOutcome :=
  if pickledEmbeddingSize embedding > entrySizeLimit then
    .capacityError s
  else if writeFails then
    .ok s
  else
    .ok { s with
          files := cleanupIfNeeded s.maxCacheSizeMB
            (writtenFiles s now text model embedding fileSize) }

/-! OpenAIEmbeddingService.embed — cache/miss bookkeeping and reassembly.

The cache consultations of one embed call are abstracted as a pure lookup
function (what EmbeddingCache.get returned for each text; a valid hit never
mutates the value seen by later lookups), and the provider call
_call_openai_api is abstracted by the embedding list it returns, which the
source extracts in response-data order without consulting the index field
([data.embedding for data in response.data]). The write-back loop after the
provider call absorbs every exception and never affects the returned value,
so it is omitted. -/

/-- Write v at position i of a list, leaving other positions unchanged
(final_embeddings[original_idx] = embedding). -/
def listSet {α : Type} : List α → ℕ → α → List α
  | [], _, _ => []
  | _ :: rest, 0, v => v :: rest
  | x :: rest, n + 1, v => x :: listSet rest n v

/-- Python enumerate, starting at k. -/
def enumFrom {α : Type} (k : ℕ) : List α → List (ℕ × α)
  | [] => []
  | a :: as => (k, a) :: enumFrom (k + 1) as

/-- The hit test of embed: cached = cache.get(text, model); if cached —
Python truthiness makes None and the empty list misses. -/
def cacheHitValue (cacheFn : String → Option (List ℚ)) (t : String) :
    Option (List ℚ) :=
  match cacheFn t with
  | some v => if v.isEmpty then none else some v
  | none => none

/-- cached_embeddings: the (original index, vector) pairs of cache hits, in
input order. -/
def embedHits (texts : List String) (cacheFn : String → Option (List ℚ)) :
    List (ℕ × List ℚ) :=
  (enumFrom 0 texts).filterMap
    (fun p => (cacheHitValue cacheFn p.2).map (fun v => (p.1, v)))

/-- texts_to_process paired with cache_mapping: the (original index, text)
pairs of cache misses, in input order; position j in this list is the text
whose provider result the source reads at new_embeddings[j]. -/
def embedMisses (texts : List String) (cacheFn : String → Option (List ℚ)) :
    List (ℕ × String) :=
  (enumFrom 0 texts).filter (fun p => (cacheHitValue cacheFn p.2).isNone)

/-- Scatter placements into the result buffer (the two placement loops of
embed writing final_embeddings[pos] = embedding). -/
def scatter (acc : List (Option (List ℚ))) (ps : List (ℕ × List ℚ)) :
    List (Option (List ℚ)) :=
  ps.foldl (fun a p => listSet a p.1 (some p.2)) acc

/-- The reassembly of OpenAIEmbeddingService.embed: start from
[None] * len(text_list), place cache hits at their original indices, then
place the j-th provider response vector at cache_mapping[j]. resp is the
provider response in response-data order. -/
def embedAssemble (texts : List String) (cacheFn : String → Option (List ℚ))
    (resp : List (List ℚ)) : List (Option (List ℚ)) :=
  scatter
    (scatter (List.replicate texts.length none) (embedHits texts cacheFn))
    ((enumFrom 0 resp).filterMap
      (fun jv => ((embedMisses texts cacheFn).get? jv.1).map
        (fun p => (p.1, jv.2))))

/-! ScorpiusRAGEngine — search validation, result processing, relevance. -/

/-- The AOContext fields consulted by the engine. ao_type and sector are
required enum fields of the dataclass (their .value strings here; enum
members are always truthy); estimated_amount and organisme are optional. -/
structure AOContext where
  ao_type : String
  sector : String
  estimated_amount : Option ℤ := none
  organisme : Option String := none
deriving DecidableEq

/-- AOContext.get_amount_range, translated from the source. -/
def getAmountRange (c : AOContext) : String :=
  match c.estimated_amount with
  | none => "Non spécifié"
  | some amount =>
    if amount < 25000 then "0-25k"
    else if amount < 100000 then "25k-100k"
    else if amount < 500000 then "100k-500k"
    else if amount < 1000000 then "500k-1M"
    else if amount < 5000000 then "1M-5M"
    else "5M+"

/-- Metadata mapping lookup (metadata.get(k)), string-valued scalars. -/
def mlookup (metadata : List (String × String)) (k : String) : Option String :=
  (metadata.find? (fun kv => kv.1 = k)).map (fun kv => kv.2)

/-- Python truthiness of an optional int (None and 0 are falsy). -/
def pyTruthyAmount : Option ℤ → Bool
  | some a => a ≠ 0
  | none => false

/-- Python truthiness of an optional string (None and "" are falsy). -/
def pyTruthyStr : Option String → Bool
  | some s => s ≠ ""
  | none => false

/-- Character-list version of: the first list begins the second one. -/
def startsWithChars : List Char → List Char → Bool
  | [], _ => true
  | _ :: _, [] => false
  | a :: as, b :: bs => a == b && startsWithChars as bs

/-- Whether needle occurs contiguously inside the haystack. -/
def containsChars (needle : List Char) : List Char → Bool
  | [] => needle.isEmpty
  | c :: rest => startsWithChars needle (c :: rest) || containsChars needle rest

/-- Python substring membership: needle in haystack. -/
def pyIn (needle haystack : String) : Bool :=
  containsChars needle.toList haystack.toList

/-- Python str.lower(), character by character (ASCII case folding; the
vocabulary it is compared against is already lower-case). -/
def pyLower (s : String) : String :=
  String.mk (s.toList.map Char.toLower)

/-- The fixed institution-class vocabulary of
_calculate_contextual_relevance. -/
def orgTypes : List String :=
  ["région", "département", "ministère", "chu", "université"]

/-- ScorpiusRAGEngine._calculate_contextual_relevance, translated from the
source: sequential additive bonuses then min with 1.0. Python str.lower() is
modeled by String.toLower (the vocabulary is already lower-case). -/
def calcContextualRelevance (metadata : List (String × String))
    (context : Option AOContext) (base_similarity : ℚ) : ℚ :=
  match context with
  | none => base_similarity
  | some c =>
    let bonus : ℚ := 0
    let bonus := bonus +
      (if mlookup metadata "secteur" = some c.sector then 1/10 else 0)
    let bonus := bonus +
      (if mlookup metadata "type_ao" = some c.ao_type then 1/10 else 0)
    let bonus := bonus +
      (if pyTruthyAmount c.estimated_amount
          && pyTruthyStr (mlookup metadata "fourchette_montant") then
        (if mlookup metadata "fourchette_montant" = some (getAmountRange c)
         then 2/25 else 0)
       else 0)
    let bonus := bonus +
      (if pyTruthyStr c.organisme && pyTruthyStr (mlookup metadata "organisme")
       then
        (if orgTypes.any (fun ot =>
              pyIn ot (pyLower (c.organisme.getD ""))
              && pyIn ot (pyLower ((mlookup metadata "organisme").getD "")))
         then 1/20 else 0)
       else 0)
    min 1 (base_similarity + bonus)

/-- The sector-match bonus as the claim words it: +0.10 when the context
sector equals the metadata secteur field. -/
def sectorBonus (metadata : List (String × String)) (c : AOContext) : ℚ :=
  if mlookup metadata "secteur" = some c.sector then 1/10 else 0

/-- The AO-type-match bonus as the claim words it: +0.10 on exact match. -/
def aoTypeBonus (metadata : List (String × String)) (c : AOContext) : ℚ :=
  if mlookup metadata "type_ao" = some c.ao_type then 1/10 else 0

/-- The amount-range-match bonus as the claim words it: +0.08 when both
sides carry an amount range and the ranges agree. -/
def amountRangeBonus (metadata : List (String × String)) (c : AOContext) : ℚ :=
  if pyTruthyAmount c.estimated_amount
      && pyTruthyStr (mlookup metadata "fourchette_montant") then
    (if mlookup metadata "fourchette_montant" = some (getAmountRange c)
     then 2/25 else 0)
  else 0

/-- The institution-class keyword bonus as the claim words it: +0.05 applied
at most once, when both identifiers share a vocabulary keyword. -/
def institutionClassBonus (metadata : List (String × String)) (c : AOContext) : ℚ :=
  if pyTruthyStr c.organisme && pyTruthyStr (mlookup metadata "organisme") then
    (if orgTypes.any (fun ot =>
          pyIn ot (pyLower (c.organisme.getD ""))
          && pyIn ot (pyLower ((mlookup metadata "organisme").getD "")))
     then 1/20 else 0)
  else 0

/-- Sum of the triggered bonuses, per the claim's description (zero when no
context is given). -/
def triggeredBonusSum (metadata : List (String × String))
    (context : Option AOContext) : ℚ :=
  match context with
  | none => 0
  | some c =>
    sectorBonus metadata c + aoTypeBonus metadata c
      + amountRangeBonus metadata c + institutionClassBonus metadata c

/-- Distance-to-similarity conversion of _process_search_results:
similarity = max(0.0, 1.0 - distance). -/
def similarityFromDistance (d : ℚ) : ℚ :=
  max 0 (1 - d)

/-- One raw neighbor from the vector store (parallel arrays element). -/
structure Neighbor where
  document : String
  metadata : List (String × String)
  distance : ℚ
deriving DecidableEq

/-- SearchResult with the fields _process_search_results fills in. -/
structure SearchResult where
  content : String
  metadata : List (String × String)
  similarity_score : ℚ
  collection : String
  ao_type : Option String
  sector : Option String
  amount_range : Option String
  relevance_score : ℚ
deriving DecidableEq

/-- SearchResult construction including the __post_init__ range checks
(ValueError when a score is outside [0, 1]). -/
def mkSearchResult (document : String) (metadata : List (String × String))
    (sim : ℚ) (collection : String) (rel : ℚ) : Except String SearchResult :=
  if ¬ (0 ≤ sim ∧ sim ≤ 1) then
    .error "similarity_score doit etre entre 0.0 et 1.0"
  else if ¬ (0 ≤ rel ∧ rel ≤ 1) then
    .error "relevance_score doit etre entre 0.0 et 1.0"
  else
    .ok
      { content := document
        metadata := metadata
        similarity_score := sim
        collection := collection
        ao_type := mlookup metadata "type_ao"
        sector := mlookup metadata "secteur"
        amount_range := mlookup metadata "fourchette_montant"
        relevance_score := rel }

/-- The per-neighbor loop of _process_search_results: convert distance to
similarity, skip neighbors below the floor, build the enriched result; a
ValueError from the SearchResult constructor propagates. -/
def processLoop (collection : String) (minSim : ℚ) (context : Option AOContext) :
    List Neighbor → Except String (List SearchResult)
  | [] => .ok []
  | n :: rest =>
    let sim := similarityFromDistance n.distance
    if sim < minSim then processLoop collection minSim context rest
    else
      match mkSearchResult n.document n.metadata sim collection
          (calcContextualRelevance n.metadata context sim) with
      | .error e => .error e
      | .ok r =>
        match processLoop collection minSim context rest with
        | .error e => .error e
        | .ok rs => .ok (r :: rs)

/-- The Python sort key r.relevance_score or r.similarity_score: a relevance
of 0.0 is falsy and falls back to the similarity. -/
def sortKeyPy (r : SearchResult) : ℚ :=
  if r.relevance_score = 0 then r.similarity_score else r.relevance_score

/-- Stable descending sort by the Python key (processed_results.sort with
reverse=True). -/
def sortResultsDesc (rs : List SearchResult) : List SearchResult :=
  List.insertionSort (fun a b => sortKeyPy b ≤ sortKeyPy a) rs

/-- ScorpiusRAGEngine._process_search_results, translated from the source:
score and filter every neighbor, sort descending, truncate to limit. -/
def processSearchResults (raw : List Neighbor) (collection : String)
    (minSim : ℚ) (context : Option AOContext) (limit : ℕ) :
    Except String (List SearchResult) :=
  match processLoop collection minSim context raw with
  | .error e => .error e
  | .ok rs => .ok ((sortResultsDesc rs).take limit)

/-- Payload of the ValidationError raised by the input checks of search:
the offending field and its (stringified) value. -/
structure ValidationErrorData where
  field_name : String
  field_value : String
deriving DecidableEq

/-- The input validation prologue of ScorpiusRAGEngine.search, translated
from the source: empty/whitespace query, limit outside [1, 100] (limit <= 0
or limit > 100), similarity floor outside [0, 1]. -/
def searchValidate (query : String) (limit : ℤ) (min_similarity_score : ℚ) :
    Option ValidationErrorData :=
  if pyBlank query then some { field_name := "query", field_value := query }
  else if limit ≤ 0 ∨ 100 < limit then
    some { field_name := "limit", field_value := toString limit }
  else if ¬ (0 ≤ min_similarity_score ∧ min_similarity_score ≤ 1) then
    some { field_name := "min_similarity_score",
           field_value := toString min_similarity_score }
  else none

/-- The engine counter the claims consult. -/
structure EngineStats where
  total_searches : ℕ
deriving DecidableEq

/-- Outcome of the try-block body of search (steps 2-6 plus stats/metrics):
either the processed results, or an error raised inside the block, tagged
with whether it already is a ScorpiusError (ValidationError included). -/
inductive PipelineOutcome where
  | ok (results : List SearchResult)
  | fail (isScorpiusError : Bool)

/-- What a call to search does, seen from the caller. -/
inductive SearchOutcome where
  | ok (results : List SearchResult)
  | validationError (e : ValidationErrorData)
  | raisedError

/-- ScorpiusRAGEngine.search control flow around the counter, translated
from the source: the validation prologue runs before the try block (a
ValidationError it raises skips the except branch entirely); on a successful
pass _update_search_stats increments total_searches; on an error inside the
try block the except branch increments total_searches and re-raises (wrapped
as a ScorpiusError when not already one). -/
def ScorpiusRAGEngine.search (stats : EngineStats) (query : String)
    (limit : ℤ) (min_similarity_score : ℚ) (pipeline : PipelineOutcome) :
    SearchOutcome × EngineStats :=
  match searchValidate query limit min_similarity_score with
  | some e => (.validationError e, stats)
  | none =>
    match pipeline with
    | .ok rs => (.ok rs, { total_searches := stats.total_searches + 1 })
    | .fail _ => (.raisedError, { total_searches := stats.total_searches + 1 })

/-! Theorems. -/

/-- Each triggered-bonus summand is nonnegative. -/
lemma triggeredBonusSum_nonneg (metadata : List (String × String))
    (context : Option AOContext) : 0 ≤ triggeredBonusSum metadata context := by
  unfold triggeredBonusSum sectorBonus aoTypeBonus amountRangeBonus
    institutionClassBonus
  cases context with
  | none => simp
  | some c =>
    have h1 : (0:ℚ) ≤ if mlookup metadata "secteur" = some c.sector
        then 1/10 else 0 := by split <;> norm_num
    have h2 : (0:ℚ) ≤ if mlookup metadata "type_ao" = some c.ao_type
        then 1/10 else 0 := by split <;> norm_num
    have h3 : (0:ℚ) ≤ if pyTruthyAmount c.estimated_amount
        && pyTruthyStr (mlookup metadata "fourchette_montant") then
          (if mlookup metadata "fourchette_montant"
              = some (getAmountRange c) then 2/25 else 0)
        else 0 := by split <;> [skip; norm_num] <;> split <;> norm_num
    have h4 : (0:ℚ) ≤ if pyTruthyStr c.organisme
        && pyTruthyStr (mlookup metadata "organisme") then
          (if orgTypes.any (fun ot =>
                pyIn ot (pyLower (c.organisme.getD ""))
                && pyIn ot (pyLower ((mlookup metadata "organisme").getD "")))
           then 1/20 else 0)
        else 0 := by split <;> [skip; norm_num] <;> split <;> norm_num
    linarith

/-- Claim C7: for every metadata mapping, optional context and base
similarity in [0, 1], the contextual relevance equals
min(1, base + sum of the triggered bonuses) (sector +0.10, AO type +0.10,
amount range +0.08, institution-class keyword +0.05 at most once), never
exceeds 1, and is never below the base similarity. -/
theorem relevance_clamp (metadata : List (String × String))
    (context : Option AOContext) (base : ℚ) (h0 : 0 ≤ base) (h1 : base ≤ 1) :
    calcContextualRelevance metadata context base
      = min 1 (base + triggeredBonusSum metadata context) ∧
    base ≤ calcContextualRelevance metadata context base ∧
    calcContextualRelevance metadata context base ≤ 1 := by
  have hb := triggeredBonusSum_nonneg metadata context
  have heq : calcContextualRelevance metadata context base
      = min 1 (base + triggeredBonusSum metadata context) := by
    unfold calcContextualRelevance triggeredBonusSum sectorBonus aoTypeBonus
      amountRangeBonus institutionClassBonus
    cases context with
    | none =>
      simp only
      rw [add_zero, min_eq_right h1]
    | some c => ring_nf
  refine ⟨heq, ?_, ?_⟩
  · rw [heq]
    exact le_min h1 (by linarith)
  · rw [heq]
    exact min_le_left _ _

/-- Witness for C7: with base similarity 0.9 and all four bonuses
triggered, the relevance is exactly 1. -/
theorem relevance_clamp_witness :
    (0:ℚ) ≤ 9/10 ∧ (9:ℚ)/10 ≤ 1 ∧
    calcContextualRelevance
      [("secteur", "Territorial"), ("type_ao", "Ouvert"),
       ("fourchette_montant", "500k-1M"), ("organisme", "chu de nantes")]
      (some { ao_type := "Ouvert", sector := "Territorial",
              estimated_amount := some 500000,
              organisme := some "CHU de Lyon" })
      (9/10) = 1 := by
  have h := relevance_clamp
    [("secteur", "Territorial"), ("type_ao", "Ouvert"),
     ("fourchette_montant", "500k-1M"), ("organisme", "chu de nantes")]
    (some { ao_type := "Ouvert", sector := "Territorial",
            estimated_amount := some 500000,
            organisme := some "CHU de Lyon" })
    (9/10) (by norm_num) (by norm_num)
  refine ⟨by norm_num, by norm_num, ?_⟩
  rw [h.1]
  have hb : triggeredBonusSum
      [("secteur", "Territorial"), ("type_ao", "Ouvert"),
       ("fourchette_montant", "500k-1M"), ("organisme", "chu de nantes")]
      (some { ao_type := "Ouvert", sector := "Territorial",
              estimated_amount := some 500000,
              organisme := some "CHU de Lyon" })
      = 1/10 + 1/10 + 2/25 + 1/20 := by
    rw [triggeredBonusSum, sectorBonus, if_pos (by rfl), aoTypeBonus,
      if_pos (by rfl), amountRangeBonus, if_pos (by rfl), if_pos (by rfl),
      institutionClassBonus, if_pos (by rfl), if_pos (by rfl)]
  rw [hb]
  norm_num

/-- Claim C3: EmbeddingCache.set raises the capacity error exactly when the
pickled size of the embedding exceeds the 10 MB per-entry ceiling; any other
write failure (modeled by writeFails) is absorbed and set returns normally,
so the capacity error is the only error set propagates. -/
theorem set_capacity_error_iff (s : CacheState) (now : ℚ) (text model : String)
    (embedding : List ℚ) (fileSize : ℕ) (writeFails : Bool) :
    (EmbeddingCache.set s now text model embedding fileSize
        writeFails).isCapacityError = true
      ↔ entrySizeLimit < pickledEmbeddingSize embedding := by
  unfold EmbeddingCache.set
  split
  · next h => simpa [SetOutcome.isCapacityError] using h
  · next h =>
    simp only [gt_iff_lt, not_lt] at h
    split <;> simp [SetOutcome.isCapacityError] <;> omega

/-- Claim C9 (amended): an invocation of search that passes input validation
increments total_searches by exactly one whether the pipeline succeeds or
raises; an invocation rejected by the input checks leaves the counter
unchanged, because the validation prologue runs before the counting
try/except block. -/
theorem search_counter_increment (stats : EngineStats) (query : String)
    (limit : ℤ) (minSim : ℚ) (pipeline : PipelineOutcome) :
    (searchValidate query limit minSim = none →
      (ScorpiusRAGEngine.search stats query limit minSim
          pipeline).2.total_searches = stats.total_searches + 1) ∧
    (∀ e, searchValidate query limit minSim = some e →
      (ScorpiusRAGEngine.search stats query limit minSim
          pipeline).2.total_searches = stats.total_searches) := by
  constructor
  · intro h
    unfold ScorpiusRAGEngine.search
    rw [h]
    cases pipeline <;> rfl
  · intro e h
    unfold ScorpiusRAGEngine.search
    rw [h]

/-- Witness for C9's amended theorem: a passing call increments 7 to 8, a
blank-query call leaves the counter at 7. -/
theorem search_counter_increment_witness :
    (ScorpiusRAGEngine.search { total_searches := 7 } "q" 5 0
        (.ok [])).2.total_searches = 7 + 1 ∧
    (ScorpiusRAGEngine.search { total_searches := 7 } "" 5 (1/2)
        (.ok [])).2.total_searches = 7 := by
  constructor
  · exact (search_counter_increment { total_searches := 7 } "q" 5 0
      (.ok [])).1 (by decide)
  · exact (search_counter_increment { total_searches := 7 } "" 5 (1/2)
      (.ok [])).2 { field_name := "query", field_value := "" } (by decide)

/-- Counterexample for C9 as stated: a search call rejected by input
validation (empty query) does not increment the total-searches counter. -/
theorem search_counter_counterexample :
    (ScorpiusRAGEngine.search { total_searches := 7 } "" 5 (1/2)
        (.ok [])).2.total_searches = 7 ∧
    (ScorpiusRAGEngine.search { total_searches := 7 } "" 5 (1/2)
        (.ok [])).2.total_searches ≠ 7 + 1 := by
  constructor
  · decide
  · decide

/-- Cleanup is a no-op while the total size is within the maximum. -/
lemma cleanupIfNeeded_of_le {maxMB : ℚ} {files : List FileEntry}
    (h : totalMB files ≤ maxMB) : cleanupIfNeeded maxMB files = files := by
  unfold cleanupIfNeeded
  rw [if_neg (not_lt.mpr h)]

/-- A freshly written cache payload passes validation for the same text and
model whenever the embedding is non-empty. -/
lemma validate_cacheDataFor (text model : String) (vec : List ℚ) (now : ℚ)
    (hvec : vec ≠ []) :
    validateCacheData (cacheDataFor text model vec now) text model = true := by
  unfold validateCacheData cacheDataFor
  simp [PyVal.lookup, List.find?, PyVal.asStr, PyVal.isNum, hvec]

/-- A freshly written cache payload fails validation against any other raw
text: the stored content hash is keyed by the raw text that was written. -/
lemma validate_cacheDataFor_ne (t₁ t₂ model : String) (vec : List ℚ)
    (now : ℚ) (h : t₁ ≠ t₂) :
    validateCacheData (cacheDataFor t₁ model vec now) t₂ model = false := by
  unfold validateCacheData cacheDataFor
  simp [PyVal.lookup, List.find?, PyVal.asStr, md5Hex, h]

/-- Unlinking the entry at a key leaves no entry at that key. -/
lemma findFile_removeFile (files : List FileEntry) (key : String) :
    findFile (removeFile files key) key = none := by
  unfold findFile removeFile
  rw [List.find?_eq_none]
  intro x hx
  simp only [List.mem_filter] at hx
  simpa using hx.2

/-- An oversized pickled embedding makes set raise before writing anything:
the capacity-error outcome carries the unchanged state. -/
lemma set_oversized (s : CacheState) (now : ℚ) (text model : String)
    (vec : List ℚ) (fileSize : ℕ) (writeFails : Bool)
    (h : entrySizeLimit < pickledEmbeddingSize vec) :
    EmbeddingCache.set s now text model vec fileSize writeFails
      = .capacityError s := by
  unfold EmbeddingCache.set
  rw [if_pos h]

/-- Claim C1 (amended): set followed by get within the TTL returns the
original vector, provided the pickled embedding is within the 10 MB
per-entry ceiling and the write leaves the total cache size within the
configured maximum (so the new entry is not evicted by the post-write
cleanup). -/
theorem cache_set_get_roundtrip (s : CacheState) (now₀ now : ℚ)
    (text model : String) (vec : List ℚ) (fileSize : ℕ)
    (hvec : vec ≠ [])
    (hsize : pickledEmbeddingSize vec ≤ entrySizeLimit)
    (hcap : totalMB (writtenFiles s now₀ text model vec fileSize)
      ≤ s.maxCacheSizeMB)
    (hfresh : now < now₀ + s.ttlHours) :
    (EmbeddingCache.get
      (EmbeddingCache.set s now₀ text model vec fileSize false).state
      now text model).1 = some (.list (vec.map PyVal.num)) := by
  have hstate : (EmbeddingCache.set s now₀ text model vec fileSize false).state
      = { s with files := writtenFiles s now₀ text model vec fileSize } := by
    unfold EmbeddingCache.set
    rw [if_neg (not_lt.mpr hsize)]
    simp only [Bool.false_eq_true, if_false, SetOutcome.state]
    rw [cleanupIfNeeded_of_le hcap]
  rw [hstate]
  unfold EmbeddingCache.get
  simp only [writtenFiles, findFile, List.find?, decide_True]
  simp only [entryFresh, decide_eq_true_eq]
  rw [if_pos (by simpa using hfresh)]
  rw [if_pos (validate_cacheDataFor text model vec now₀ hvec)]
  simp [cacheDataFor, PyVal.lookup, List.find?]

/-- Witness for C1's amended theorem: a small vector round-trips through an
empty cache within a 24 hour TTL. -/
theorem cache_set_get_roundtrip_witness :
    (EmbeddingCache.get
      (EmbeddingCache.set
        { files := [], ttlHours := 24, maxCacheSizeMB := 500 }
        0 "a b" "m" [1] 100 false).state
      1 "a b" "m").1 = some (.list [PyVal.num 1]) := by
  exact cache_set_get_roundtrip
    { files := [], ttlHours := 24, maxCacheSizeMB := 500 }
    0 1 "a b" "m" [1] 100
    (by simp)
    (by norm_num [pickledEmbeddingSize, entrySizeLimit])
    (by norm_num [totalMB, writtenFiles, removeFile])
    (by norm_num)

/-- Counterexample for C1 as stated: the round trip is not universal over
vectors. A pathologically large vector makes set raise the capacity error
and store nothing, so get returns absent; and even an accepted write can be
evicted immediately by the post-write cleanup when it overflows the
configured cache size, after which get also returns absent. -/
theorem cache_set_get_roundtrip_counterexample :
    ((EmbeddingCache.set
        { files := [], ttlHours := 24, maxCacheSizeMB := 500 }
        0 "t" "m" (List.replicate 2000000 1) 100 false).isCapacityError
      = true ∧
     (EmbeddingCache.get
        (EmbeddingCache.set
          { files := [], ttlHours := 24, maxCacheSizeMB := 500 }
          0 "t" "m" (List.replicate 2000000 1) 100 false).state
        1 "t" "m").1 = none) ∧
    (EmbeddingCache.get
      (EmbeddingCache.set
        { files := [], ttlHours := 24, maxCacheSizeMB := 1 }
        0 "t" "m" [1] 3145728 false).state
      1 "t" "m").1 = none := by
  have hbig : entrySizeLimit < pickledEmbeddingSize (List.replicate 2000000 (1:ℚ)) := by
    rw [pickledEmbeddingSize, List.length_replicate,
      show entrySizeLimit = 10 * 1024 * 1024 from rfl]
    norm_num
  have hset := set_oversized
    { files := [], ttlHours := 24, maxCacheSizeMB := 500 }
    0 "t" "m" (List.replicate 2000000 1) 100 false hbig
  refine ⟨⟨?_, ?_⟩, ?_⟩
  · rw [hset]
    rfl
  · rw [hset]
    simp [SetOutcome.state, EmbeddingCache.get, findFile]
  · have hsmall : ¬ entrySizeLimit < pickledEmbeddingSize [(1:ℚ)] := by
      norm_num [pickledEmbeddingSize, entrySizeLimit]
    have hover : totalMB (writtenFiles
        { files := [], ttlHours := 24, maxCacheSizeMB := 1 } 0 "t" "m" [1] 3145728)
        > 1 := by
      norm_num [totalMB, writtenFiles, removeFile]
    have hclean : cleanupIfNeeded 1 (writtenFiles
        { files := [], ttlHours := 24, maxCacheSizeMB := 1 } 0 "t" "m" [1] 3145728)
        = [] := by
      unfold cleanupIfNeeded
      rw [if_pos hover]
      unfold cleanupOldestEntries
      have hsort : sortByMtime (writtenFiles
          { files := [], ttlHours := 24, maxCacheSizeMB := 1 }
          0 "t" "m" [1] 3145728)
          = writtenFiles { files := [], ttlHours := 24, maxCacheSizeMB := 1 }
              0 "t" "m" [1] 3145728 := rfl
      rw [hsort]
      unfold writtenFiles removeFile
      simp only [List.filter_nil]
      unfold dropOldest
      rw [if_neg (by norm_num [totalMB])]
      rfl
    have hstate : (EmbeddingCache.set
        { files := [], ttlHours := 24, maxCacheSizeMB := 1 }
        0 "t" "m" [1] 3145728 false).state
        = { files := [], ttlHours := 24, maxCacheSizeMB := 1 } := by
      unfold EmbeddingCache.set
      rw [if_neg hsmall]
      simp only [Bool.false_eq_true, if_false, SetOutcome.state]
      rw [hclean]
    rw [hstate]
    simp [EmbeddingCache.get, findFile]

/-- Claim C2: get fails closed. Whenever the hit path does not go through
(entry absent, stale, unreadable, or invalid), get returns None instead of
raising; and when a fresh entry was found and read but failed validation,
the entry is unlinked before get returns. -/
theorem cache_get_fails_closed (s : CacheState) (now : ℚ)
    (text model : String) (h : entryOK s now text model = false) :
    (EmbeddingCache.get s now text model).1 = none ∧
    (foundInvalid s now text model = true →
      findFile (EmbeddingCache.get s now text model).2.files
        (cacheKey text model) = none) := by
  unfold EmbeddingCache.get
  unfold entryOK at h
  unfold foundInvalid
  cases hf : findFile s.files (cacheKey text model) with
  | none => simp [hf]
  | some f =>
    simp only [hf] at h ⊢
    cases hfr : entryFresh s now f with
    | false => simp [hfr]
    | true =>
      simp only [hfr, Bool.true_and] at h
      cases hd : f.data with
      | none => simp [hfr, hd]
      | some d =>
        simp only [hd] at h
        simp [hfr, hd, h, findFile_removeFile]

/-- Witness for C2: a stored entry whose content-hash field was tampered
with makes get return absent and unlink the entry. -/
theorem cache_get_fails_closed_witness :
    (EmbeddingCache.get
      { files := [{ key := "t|m",
                    data := some (.dict
                      [("text", .str "t"), ("model", .str "m"),
                       ("embedding", .list [.num 1]),
                       ("text_hash", .str "bad")]),
                    mtime := 0, size := 10 }],
        ttlHours := 24, maxCacheSizeMB := 500 } 1 "t" "m").1 = none ∧
    findFile (EmbeddingCache.get
      { files := [{ key := "t|m",
                    data := some (.dict
                      [("text", .str "t"), ("model", .str "m"),
                       ("embedding", .list [.num 1]),
                       ("text_hash", .str "bad")]),
                    mtime := 0, size := 10 }],
        ttlHours := 24, maxCacheSizeMB := 500 } 1 "t" "m").2.files
      (cacheKey "t" "m") = none := by
  have hval : validateCacheData
      (.dict [("text", .str "t"), ("model", .str "m"),
              ("embedding", .list [.num 1]), ("text_hash", .str "bad")])
      "t" "m" = false := by decide
  have hfind : findFile
      [{ key := "t|m",
         data := some (.dict
           [("text", .str "t"), ("model", .str "m"),
            ("embedding", .list [.num 1]), ("text_hash", .str "bad")]),
         mtime := 0, size := 10 }] (cacheKey "t" "m")
      = some { key := "t|m",
               data := some (.dict
                 [("text", .str "t"), ("model", .str "m"),
                  ("embedding", .list [.num 1]), ("text_hash", .str "bad")]),
               mtime := 0, size := 10 } := rfl
  have hok : entryOK
      { files := [{ key := "t|m",
                    data := some (.dict
                      [("text", .str "t"), ("model", .str "m"),
                       ("embedding", .list [.num 1]),
                       ("text_hash", .str "bad")]),
                    mtime := 0, size := 10 }],
        ttlHours := 24, maxCacheSizeMB := 500 } 1 "t" "m" = false := by
    unfold entryOK
    simp only [hfind]
    norm_num [entryFresh, hval]
  have hfi : foundInvalid
      { files := [{ key := "t|m",
                    data := some (.dict
                      [("text", .str "t"), ("model", .str "m"),
                       ("embedding", .list [.num 1]),
                       ("text_hash", .str "bad")]),
                    mtime := 0, size := 10 }],
        ttlHours := 24, maxCacheSizeMB := 500 } 1 "t" "m" = true := by
    unfold foundInvalid
    simp only [hfind]
    norm_num [entryFresh, hval]
  have h := cache_get_fails_closed
    { files := [{ key := "t|m",
                  data := some (.dict
                    [("text", .str "t"), ("model", .str "m"),
                     ("embedding", .list [.num 1]),
                     ("text_hash", .str "bad")]),
                  mtime := 0, size := 10 }],
      ttlHours := 24, maxCacheSizeMB := 500 } 1 "t" "m" hok
  exact ⟨h.1, h.2 hfi⟩

/-- Claim C10: two distinct raw texts that normalize to the same string
share a cache key, but the stored content hash is keyed by the raw text, so
after set(t₁) a fresh get(t₂) fails validation: it returns absent and
unlinks the stored entry. -/
theorem cache_whitespace_collision (s : CacheState) (now₀ now : ℚ)
    (t₁ t₂ model : String) (vec : List ℚ) (fileSize : ℕ)
    (hne : t₁ ≠ t₂) (hnorm : normalizeText t₁ = normalizeText t₂)
    (hvec : vec ≠ [])
    (hsize : pickledEmbeddingSize vec ≤ entrySizeLimit)
    (hcap : totalMB (writtenFiles s now₀ t₁ model vec fileSize)
      ≤ s.maxCacheSizeMB)
    (hfresh : now < now₀ + s.ttlHours) :
    (EmbeddingCache.get
      (EmbeddingCache.set s now₀ t₁ model vec fileSize false).state
      now t₂ model).1 = none ∧
    findFile (EmbeddingCache.get
      (EmbeddingCache.set s now₀ t₁ model vec fileSize false).state
      now t₂ model).2.files (cacheKey t₂ model) = none := by
  have hkey : cacheKey t₂ model = cacheKey t₁ model := by
    unfold cacheKey
    rw [hnorm]
  have hstate : (EmbeddingCache.set s now₀ t₁ model vec fileSize false).state
      = { s with files := writtenFiles s now₀ t₁ model vec fileSize } := by
    unfold EmbeddingCache.set
    rw [if_neg (not_lt.mpr hsize)]
    simp only [Bool.false_eq_true, if_false, SetOutcome.state]
    rw [cleanupIfNeeded_of_le hcap]
  rw [hstate]
  unfold EmbeddingCache.get
  simp only [hkey]
  simp only [writtenFiles, findFile, List.find?, decide_True]
  simp only [entryFresh, decide_eq_true_eq]
  rw [if_pos (by simpa using hfresh)]
  rw [if_neg (by
    rw [validate_cacheDataFor_ne t₁ t₂ model vec now₀ hne]
    simp)]
  refine ⟨rfl, ?_⟩
  exact findFile_removeFile _ _

/-- Witness for C10: "a  b" and "a b" collide on the cache key; after
caching under "a  b", a get for "a b" within TTL misses and deletes the
entry. -/
theorem cache_whitespace_collision_witness :
    (EmbeddingCache.get
      (EmbeddingCache.set
        { files := [], ttlHours := 24, maxCacheSizeMB := 500 }
        0 "a  b" "m" [1] 100 false).state
      1 "a b" "m").1 = none ∧
    findFile (EmbeddingCache.get
      (EmbeddingCache.set
        { files := [], ttlHours := 24, maxCacheSizeMB := 500 }
        0 "a  b" "m" [1] 100 false).state
      1 "a b" "m").2.files (cacheKey "a b" "m") = none := by
  exact cache_whitespace_collision
    { files := [], ttlHours := 24, maxCacheSizeMB := 500 }
    0 1 "a  b" "a b" "m" [1] 100
    (by decide) (by decide) (by simp)
    (by norm_num [pickledEmbeddingSize, entrySizeLimit])
    (by norm_num [totalMB, writtenFiles, removeFile])
    (by norm_num)

/-- The eviction loop keeps a suffix of the age-sorted list. -/
lemma dropOldest_suffix (t : ℚ) :
    ∀ l : List FileEntry, dropOldest t l <:+ l := by
  intro l
  induction l with
  | nil => simp [dropOldest]
  | cons f rest ih =>
    unfold dropOldest
    split
    · exact List.suffix_refl _
    · exact ih.trans (List.suffix_cons f rest)

/-- The eviction loop reaches the target whenever the target is
nonnegative (deleting everything reaches size zero). -/
lemma dropOldest_totalMB_le (t : ℚ) (ht : 0 ≤ t) :
    ∀ l : List FileEntry, totalMB (dropOldest t l) ≤ t := by
  intro l
  induction l with
  | nil =>
    simpa [dropOldest, totalMB] using ht
  | cons f rest ih =>
    unfold dropOldest
    split
    · next hle => exact hle
    · exact ih

/-- The age sort is a permutation of the input. -/
lemma sortByMtime_perm (l : List FileEntry) : List.Perm (sortByMtime l) l :=
  List.perm_insertionSort _ l

/-- The age sort is sorted by modification time. -/
lemma sortByMtime_sorted (l : List FileEntry) :
    List.Sorted (fun a b : FileEntry => a.mtime ≤ b.mtime) (sortByMtime l) := by
  haveI : IsTotal FileEntry (fun a b => a.mtime ≤ b.mtime) :=
    ⟨fun a b => le_total a.mtime b.mtime⟩
  haveI : IsTrans FileEntry (fun a b => a.mtime ≤ b.mtime) :=
    ⟨fun a b c hab hbc => le_trans hab hbc⟩
  exact List.sorted_insertionSort _ l

/-- Claim C4: when the total cache size exceeds the configured maximum
after a write, the cleanup deletes entries oldest-first until the total is
at most 80% of the maximum: the result is within the 80% target, and every
deleted entry is at least as old as every retained entry (entries newer
than the deleted ones are retained). -/
theorem cache_capacity_eviction (maxMB : ℚ) (files : List FileEntry)
    (hmax : 0 ≤ maxMB) (hover : totalMB files > maxMB) :
    totalMB (cleanupIfNeeded maxMB files) ≤ maxMB * (8 / 10) ∧
    ∀ f ∈ files, f ∉ cleanupIfNeeded maxMB files →
      ∀ g ∈ cleanupIfNeeded maxMB files, f.mtime ≤ g.mtime := by
  have hrw : cleanupIfNeeded maxMB files
      = dropOldest (maxMB * (8 / 10)) (sortByMtime files) := by
    unfold cleanupIfNeeded cleanupOldestEntries
    rw [if_pos hover]
  constructor
  · rw [hrw]
    exact dropOldest_totalMB_le _ (by nlinarith) _
  · intro f hf hnf g hg
    rw [hrw] at hnf hg
    obtain ⟨pre, hpre⟩ := dropOldest_suffix (maxMB * (8 / 10)) (sortByMtime files)
    have hf' : f ∈ sortByMtime files := (sortByMtime_perm files).mem_iff.mpr hf
    rw [← hpre] at hf'
    rcases List.mem_append.mp hf' with hfp | hfs
    · have hsorted := sortByMtime_sorted files
      rw [← hpre] at hsorted
      exact (List.pairwise_append.mp hsorted).2.2 f hfp g hg
    · exact absurd hfs hnf

/-- Witness for C4: three 1 MB files against a 2 MB maximum shrink to
within the 1.6 MB target. -/
theorem cache_capacity_eviction_witness :
    totalMB (cleanupIfNeeded 2
      [{ key := "a", data := none, mtime := 0, size := 1048576 },
       { key := "b", data := none, mtime := 1, size := 1048576 },
       { key := "c", data := none, mtime := 2, size := 1048576 }])
      ≤ 2 * (8 / 10) := by
  exact (cache_capacity_eviction 2
    [{ key := "a", data := none, mtime := 0, size := 1048576 },
     { key := "b", data := none, mtime := 1, size := 1048576 },
     { key := "c", data := none, mtime := 2, size := 1048576 }]
    (by norm_num) (by norm_num [totalMB])).1

/-- Claim C8: search rejects a blank query, a limit outside [1, 100], or a
similarity floor outside [0, 1] with a ValidationError naming the offending
field and its value, before any pipeline work (the outcome is the same for
every pipeline and the stats are untouched); the boundary values pass
validation. -/
theorem search_input_validation (stats : EngineStats) (query : String)
    (limit : ℤ) (minSim : ℚ) :
    (∀ e, searchValidate query limit minSim = some e →
      ∀ p, ScorpiusRAGEngine.search stats query limit minSim p
        = (.validationError e, stats)) ∧
    (pyBlank query = true →
      searchValidate query limit minSim
        = some { field_name := "query", field_value := query }) ∧
    (pyBlank query = false → limit ≤ 0 ∨ 100 < limit →
      searchValidate query limit minSim
        = some { field_name := "limit", field_value := toString limit }) ∧
    (pyBlank query = false → 1 ≤ limit → limit ≤ 100 →
      minSim < 0 ∨ 1 < minSim →
      searchValidate query limit minSim
        = some { field_name := "min_similarity_score",
                 field_value := toString minSim }) ∧
    (pyBlank query = false → 1 ≤ limit → limit ≤ 100 →
      0 ≤ minSim → minSim ≤ 1 →
      searchValidate query limit minSim = none) := by
  refine ⟨?_, ?_, ?_, ?_, ?_⟩
  · intro e h p
    unfold ScorpiusRAGEngine.search
    rw [h]
  · intro hq
    unfold searchValidate
    rw [if_pos hq]
  · intro hq hl
    unfold searchValidate
    rw [if_neg (by simp [hq]), if_pos hl]
  · intro hq h1 h2 hm
    unfold searchValidate
    rw [if_neg (by simp [hq]), if_neg (by omega),
      if_pos (by rintro ⟨ha, hb⟩; rcases hm with h | h <;> linarith)]
  · intro hq h1 h2 hm0 hm1
    unfold searchValidate
    rw [if_neg (by simp [hq]), if_neg (by omega),
      if_neg (fun hn => hn ⟨hm0, hm1⟩)]

/-- Witness for C8: the boundary values limit 1 and 100 and floors 0 and 1
are accepted; a whitespace query, limit 0, limit 101 and floor 2 are each
rejected with the offending field named. -/
theorem search_input_validation_witness :
    searchValidate "q" 1 0 = none ∧
    searchValidate "q" 100 1 = none ∧
    searchValidate " " 5 0
      = some { field_name := "query", field_value := " " } ∧
    searchValidate "q" 0 0
      = some { field_name := "limit", field_value := toString (0 : ℤ) } ∧
    searchValidate "q" 101 0
      = some { field_name := "limit", field_value := toString (101 : ℤ) } ∧
    searchValidate "q" 5 2
      = some { field_name := "min_similarity_score",
               field_value := toString (2 : ℚ) } ∧
    (∀ p, ScorpiusRAGEngine.search { total_searches := 3 } " " 5 0 p
      = (.validationError { field_name := "query", field_value := " " },
         { total_searches := 3 })) := by
  refine ⟨?_, ?_, ?_, ?_, ?_, ?_, ?_⟩
  · exact (search_input_validation { total_searches := 3 } "q" 1 0).2.2.2.2
      (by decide) (by decide) (by decide) (by norm_num) (by norm_num)
  · exact (search_input_validation { total_searches := 3 } "q" 100 1).2.2.2.2
      (by decide) (by decide) (by decide) (by norm_num) (by norm_num)
  · exact (search_input_validation { total_searches := 3 } " " 5 0).2.1
      (by decide)
  · exact (search_input_validation { total_searches := 3 } "q" 0 0).2.2.1
      (by decide) (by omega)
  · exact (search_input_validation { total_searches := 3 } "q" 101 0).2.2.1
      (by decide) (by omega)
  · exact (search_input_validation { total_searches := 3 } "q" 5 2).2.2.2.1
      (by decide) (by decide) (by decide) (by norm_num)
  · intro p
    exact (search_input_validation { total_searches := 3 } " " 5 0).1
      { field_name := "query", field_value := " " }
      ((search_input_validation { total_searches := 3 } " " 5 0).2.1
        (by decide)) p

/-- Inversion of the SearchResult constructor: a successful construction
carries the document as content and the given similarity score. -/
lemma mkSearchResult_ok {doc : String} {md : List (String × String)}
    {sim : ℚ} {coll : String} {rel : ℚ} {r : SearchResult}
    (h : mkSearchResult doc md sim coll rel = .ok r) :
    r.content = doc ∧ r.similarity_score = sim := by
  unfold mkSearchResult at h
  split at h
  · cases h
  · split at h
    · cases h
    · cases h
      exact ⟨rfl, rfl⟩

set_option maxHeartbeats 1000000 in
/-- Every result the per-neighbor loop emits is at or above the floor and
carries the converted similarity of one of the input neighbors. -/
lemma processLoop_mem (collection : String) (minSim : ℚ)
    (context : Option AOContext) :
    ∀ (raw : List Neighbor) (rs : List SearchResult),
      processLoop collection minSim context raw = .ok rs →
      ∀ r ∈ rs, minSim ≤ r.similarity_score ∧
        ∃ n ∈ raw, r.content = n.document ∧
          r.similarity_score = similarityFromDistance n.distance := by
  intro raw
  induction raw with
  | nil =>
    intro rs h r hr
    simp only [processLoop] at h
    cases h
    simp at hr
  | cons n rest ih =>
    intro rs h r hr
    simp only [processLoop] at h
    split at h
    · obtain ⟨hs, n', hn', hprops⟩ := ih rs h r hr
      exact ⟨hs, n', List.mem_cons_of_mem _ hn', hprops⟩
    · next hge =>
      split at h
      · cases h
      · next r' hmk =>
        split at h
        · cases h
        · next rs' hrest =>
          cases h
          rcases List.mem_cons.mp hr with hr1 | hr2
          · subst hr1
            obtain ⟨hc, hs⟩ := mkSearchResult_ok hmk
            refine ⟨?_, n, List.mem_cons_self _ _, hc, hs⟩
            rw [hs]
            exact le_of_not_lt hge
          · obtain ⟨hs, n', hn', hprops⟩ := ih rs' hrest r hr2
            exact ⟨hs, n', List.mem_cons_of_mem _ hn', hprops⟩

/-- Claim C6: every result of _process_search_results carries a similarity
equal to max(0, 1 - distance) of one of the retrieved neighbors and at least
the similarity floor (neighbors strictly below the floor are excluded), and
the conversion sends distance 0 to 1, any distance at least 1 to 0, and is
never negative. -/
theorem process_results_score_and_filter (raw : List Neighbor)
    (collection : String) (minSim : ℚ) (context : Option AOContext)
    (limit : ℕ) :
    (∀ rs, processSearchResults raw collection minSim context limit = .ok rs →
      ∀ r ∈ rs, minSim ≤ r.similarity_score ∧
        ∃ n ∈ raw, r.content = n.document ∧
          r.similarity_score = similarityFromDistance n.distance) ∧
    similarityFromDistance 0 = 1 ∧
    (∀ d : ℚ, 1 ≤ d → similarityFromDistance d = 0) ∧
    (∀ d : ℚ, 0 ≤ similarityFromDistance d) := by
  refine ⟨?_, ?_, ?_, ?_⟩
  · intro rs h r hr
    unfold processSearchResults at h
    split at h
    · cases h
    · next rs₀ hloop =>
      cases h
      have hr₀ : r ∈ rs₀ := by
        have h1 : r ∈ sortResultsDesc rs₀ := List.take_subset _ _ hr
        exact (List.perm_insertionSort _ rs₀).subset h1
      exact processLoop_mem collection minSim context raw rs₀ hloop r hr₀
  · unfold similarityFromDistance
    norm_num
  · intro d hd
    unfold similarityFromDistance
    rw [max_eq_left (by linarith)]
  · intro d
    exact le_max_left _ _

/-- Witness for C6: with neighbors at distances 0.1 and 0.6 and floor 0.5,
the kept result has similarity 0.9 = max(0, 1 - 0.1) and the 0.4-similarity
neighbor is filtered out. -/
theorem process_results_score_and_filter_witness :
    (1:ℚ)/2 ≤ (9:ℚ)/10 ∧
    ∃ n ∈ [({ document := "keep", metadata := [], distance := 1/10 } : Neighbor),
           { document := "skip", metadata := [], distance := 3/5 }],
      "keep" = n.document ∧ (9:ℚ)/10 = similarityFromDistance n.distance := by
  have hok : processSearchResults
      [{ document := "keep", metadata := [], distance := 1/10 },
       { document := "skip", metadata := [], distance := 3/5 }] "c" (1/2) none 5
      = .ok [{ content := "keep", metadata := [], similarity_score := 9/10,
               collection := "c", ao_type := none, sector := none,
               amount_range := none, relevance_score := 9/10 }] := by
    norm_num [processSearchResults, processLoop, mkSearchResult,
      similarityFromDistance, calcContextualRelevance, mlookup,
      sortResultsDesc, List.insertionSort, List.orderedInsert, max_def,
      List.find?]
  have h := (process_results_score_and_filter
      [{ document := "keep", metadata := [], distance := 1/10 },
       { document := "skip", metadata := [], distance := 3/5 }]
      "c" (1/2) none 5).1 _ hok
      { content := "keep", metadata := [], similarity_score := 9/10,
        collection := "c", ao_type := none, sector := none,
        amount_range := none, relevance_score := 9/10 }
      (List.mem_singleton_self _)
  exact ⟨h.1, h.2⟩

lemma listSet_length {α : Type} (l : List α) (i : ℕ) (v : α) :
    (listSet l i v).length = l.length := by
  induction l generalizing i with
  | nil => rfl
  | cons x rest ih =>
    cases i with
    | zero => rfl
    | succ n => simp [listSet, ih]

lemma listSet_get?_self {α : Type} (l : List α) (i : ℕ) (v : α)
    (h : i < l.length) : (listSet l i v).get? i = some v := by
  induction l generalizing i with
  | nil => simp at h
  | cons x rest ih =>
    cases i with
    | zero => rfl
    | succ n =>
      simp only [listSet, List.get?]
      exact ih n (by simpa using h)

lemma listSet_get?_of_ne {α : Type} (l : List α) (i j : ℕ) (v : α)
    (h : i ≠ j) : (listSet l i v).get? j = l.get? j := by
  induction l generalizing i j with
  | nil => rfl
  | cons x rest ih =>
    cases i with
    | zero =>
      cases j with
      | zero => exact absurd rfl h
      | succ m => rfl
    | succ n =>
      cases j with
      | zero => rfl
      | succ m =>
        simp only [listSet, List.get?]
        exact ih n m (by omega)

lemma scatter_length (acc : List (Option (List ℚ))) (ps : List (ℕ × List ℚ)) :
    (scatter acc ps).length = acc.length := by
  induction ps generalizing acc with
  | nil => rfl
  | cons p rest ih =>
    simp only [scatter, List.foldl]
    rw [show (List.foldl (fun a p => listSet a p.1 (some p.2)) (listSet acc p.1 (some p.2)) rest)
      = scatter (listSet acc p.1 (some p.2)) rest from rfl]
    rw [ih, listSet_length]

lemma scatter_get?_of_not_mem (acc : List (Option (List ℚ)))
    (ps : List (ℕ × List ℚ)) (j : ℕ) (h : ∀ p ∈ ps, p.1 ≠ j) :
    (scatter acc ps).get? j = acc.get? j := by
  induction ps generalizing acc with
  | nil => rfl
  | cons p rest ih =>
    rw [show scatter acc (p :: rest) = scatter (listSet acc p.1 (some p.2)) rest from rfl]
    rw [ih _ (fun q hq => h q (List.mem_cons_of_mem _ hq))]
    exact listSet_get?_of_ne _ _ _ _ (h p (List.mem_cons_self _ _))

lemma scatter_get?_of_mem (acc : List (Option (List ℚ)))
    (ps : List (ℕ × List ℚ)) (i : ℕ) (v : List ℚ)
    (hmem : (i, v) ∈ ps)
    (hpw : List.Pairwise (fun p q => p.1 < q.1) ps)
    (hlen : i < acc.length) :
    (scatter acc ps).get? i = some (some v) := by
  induction ps generalizing acc with
  | nil => simp at hmem
  | cons p rest ih =>
    rw [show scatter acc (p :: rest) = scatter (listSet acc p.1 (some p.2)) rest from rfl]
    rcases List.mem_cons.mp hmem with heq | hmem'
    · cases heq.symm
      have hfst : ∀ q ∈ rest, q.1 ≠ i := by
        intro q hq
        have hlt := (List.pairwise_cons.mp hpw).1 q hq
        simp only at hlt
        omega
      rw [scatter_get?_of_not_mem _ rest i hfst]
      exact listSet_get?_self acc i (some v) hlen
    · exact ih _ hmem' (List.pairwise_cons.mp hpw).2 (by rw [listSet_length]; exact hlen)

lemma enumFrom_get? {α : Type} (l : List α) (k i : ℕ) :
    (enumFrom k l).get? i = (l.get? i).map (fun a => (k + i, a)) := by
  induction l generalizing k i with
  | nil => simp [enumFrom]
  | cons x rest ih =>
    cases i with
    | zero => simp [enumFrom]
    | succ n =>
      simp only [enumFrom, List.get?]
      rw [ih (k + 1) n]
      cases rest.get? n <;> simp <;> omega

lemma mem_enumFrom {α : Type} {p : ℕ × α} :
    ∀ (l : List α) (k : ℕ), p ∈ enumFrom k l →
      k ≤ p.1 ∧ l.get? (p.1 - k) = some p.2 := by
  intro l
  induction l with
  | nil => intro k h; simp [enumFrom] at h
  | cons x rest ih =>
    intro k h
    rcases List.mem_cons.mp h with heq | hmem
    · subst heq
      simp
    · obtain ⟨hle, hget⟩ := ih (k + 1) hmem
      refine ⟨by omega, ?_⟩
      rw [show p.1 - k = (p.1 - (k + 1)) + 1 from by omega]
      simpa using hget

lemma enumFrom_pairwise {α : Type} :
    ∀ (l : List α) (k : ℕ),
      List.Pairwise (fun p q : ℕ × α => p.1 < q.1) (enumFrom k l) := by
  intro l
  induction l with
  | nil => intro k; simp [enumFrom]
  | cons x rest ih =>
    intro k
    rw [show enumFrom k (x :: rest) = (k, x) :: enumFrom (k + 1) rest from rfl]
    refine List.pairwise_cons.mpr ⟨?_, ih (k + 1)⟩
    intro q hq
    have := (mem_enumFrom _ _ hq).1
    simp only
    omega
lemma pairwise_fst_filterMap {α β : Type} (g : (ℕ × α) → Option (ℕ × β))
    (hg : ∀ p q, g p = some q → q.1 = p.1) :
    ∀ l : List (ℕ × α),
      List.Pairwise (fun p q : ℕ × α => p.1 < q.1) l →
      List.Pairwise (fun p q : ℕ × β => p.1 < q.1) (l.filterMap g) := by
  intro l
  induction l with
  | nil => intro _; simp
  | cons a rest ih =>
    intro h
    obtain ⟨ha, hrest⟩ := List.pairwise_cons.mp h
    rw [List.filterMap_cons]
    cases hga : g a with
    | none => exact ih hrest
    | some b =>
      refine List.pairwise_cons.mpr ⟨?_, ih hrest⟩
      intro c hc
      obtain ⟨p, hp, hgp⟩ := List.mem_filterMap.mp hc
      rw [hg a b hga, hg p c hgp]
      exact ha p hp

lemma get?_append_length {α : Type} (pre : List α) (m : α) (rest : List α) :
    (pre ++ m :: rest).get? pre.length = some m := by
  induction pre with
  | nil => rfl
  | cons x xs ih => simpa using ih

lemma placements_eq_general {α : Type} (g : (ℕ × String) → α) :
    ∀ (ms pre : List (ℕ × String)),
      (enumFrom pre.length (ms.map g)).filterMap
        (fun jv => ((pre ++ ms).get? jv.1).map (fun p => (p.1, jv.2)))
      = ms.map (fun p => (p.1, g p)) := by
  intro ms
  induction ms with
  | nil => intro pre; simp [enumFrom]
  | cons m rest ih =>
    intro pre
    rw [show (m :: rest).map g = g m :: rest.map g from rfl]
    rw [show enumFrom pre.length (g m :: rest.map g)
      = (pre.length, g m) :: enumFrom (pre.length + 1) (rest.map g) from rfl]
    rw [List.filterMap_cons]
    simp only [get?_append_length, Option.map_some]
    have hre : pre ++ m :: rest = (pre ++ [m]) ++ rest := by simp
    have hlen : pre.length + 1 = (pre ++ [m]).length := by simp
    rw [hre, hlen, ih (pre ++ [m])]
    rfl

lemma placements_eq (ms : List (ℕ × String)) (f : String → List ℚ) :
    (enumFrom 0 (ms.map (fun p => f p.2))).filterMap
      (fun jv => (ms.get? jv.1).map (fun p => (p.1, jv.2)))
    = ms.map (fun p => (p.1, f p.2)) := by
  have h := placements_eq_general (fun p => f p.2) ms []
  simpa using h

lemma cacheHitValue_eq_some {cacheFn : String → Option (List ℚ)} {t : String}
    {v : List ℚ} (h : cacheHitValue cacheFn t = some v) :
    cacheFn t = some v := by
  unfold cacheHitValue at h
  cases hc : cacheFn t with
  | none => simp [hc] at h
  | some w =>
    simp only [hc] at h
    by_cases hw : w.isEmpty
    · simp [hw] at h
    · simp only [if_neg hw] at h
      cases h
      rfl
lemma embedHits_pairwise (texts : List String)
    (cacheFn : String → Option (List ℚ)) :
    List.Pairwise (fun p q : ℕ × List ℚ => p.1 < q.1)
      (embedHits texts cacheFn) := by
  unfold embedHits
  refine pairwise_fst_filterMap _ ?_ _ (enumFrom_pairwise _ _)
  intro p q h
  cases hcv : cacheHitValue cacheFn p.2 with
  | none => rw [hcv] at h; cases h
  | some w =>
    rw [hcv] at h
    cases h
    rfl

lemma embedMisses_pairwise (texts : List String)
    (cacheFn : String → Option (List ℚ)) :
    List.Pairwise (fun p q : ℕ × String => p.1 < q.1)
      (embedMisses texts cacheFn) :=
  List.Pairwise.sublist (List.filter_sublist _) (enumFrom_pairwise _ _)

theorem embed_order_preservation (texts : List String) (f : String → List ℚ)
    (cacheFn : String → Option (List ℚ))
    (hcache : ∀ t v, cacheFn t = some v → v = f t) :
    embedAssemble texts cacheFn
        ((embedMisses texts cacheFn).map (fun p => f p.2))
      = texts.map (fun t => some (f t)) := by
  unfold embedAssemble
  rw [placements_eq (embedMisses texts cacheFn) f]
  apply List.ext_get?
  intro i
  have hlen1 : (scatter (scatter (List.replicate texts.length none)
      (embedHits texts cacheFn))
      ((embedMisses texts cacheFn).map (fun p => (p.1, f p.2)))).length
      = texts.length := by
    rw [scatter_length, scatter_length, List.length_replicate]
  by_cases hi : i < texts.length
  · have ht : texts.get? i = some (texts.get ⟨i, hi⟩) := List.get?_eq_get hi
    have henum : (i, texts.get ⟨i, hi⟩) ∈ enumFrom 0 texts := by
      apply List.get?_mem
      rw [enumFrom_get?, ht]
      simp
    have hinv : ∀ p : ℕ × String, p ∈ enumFrom 0 texts → p.1 = i →
        p.2 = texts.get ⟨i, hi⟩ := by
      intro p hp hpi
      have hg := (mem_enumFrom _ _ hp).2
      rw [hpi] at hg
      simp only [Nat.sub_zero] at hg
      rw [ht] at hg
      exact (Option.some_inj.mp hg).symm
    rw [List.get?_map, ht]
    cases hh : cacheHitValue cacheFn (texts.get ⟨i, hi⟩) with
    | some v =>
      have hv : v = f (texts.get ⟨i, hi⟩) :=
        hcache _ v (cacheHitValue_eq_some hh)
      have hmemhits : (i, v) ∈ embedHits texts cacheFn :=
        List.mem_filterMap.mpr ⟨(i, texts.get ⟨i, hi⟩), henum,
          by simp only [hh]; rfl⟩
      have hnp : ∀ p ∈ (embedMisses texts cacheFn).map (fun p => (p.1, f p.2)),
          p.1 ≠ i := by
        intro p hp hpi
        obtain ⟨q, hq, hqe⟩ := List.mem_map.mp hp
        unfold embedMisses at hq
        obtain ⟨hqenum, hqmiss⟩ := List.mem_filter.mp hq
        have hq1 : q.1 = i := by rw [← hqe] at hpi; exact hpi
        have hqt := hinv q hqenum hq1
        rw [hqt, hh] at hqmiss
        cases hqmiss
      rw [scatter_get?_of_not_mem _ _ i hnp]
      rw [scatter_get?_of_mem _ _ i v hmemhits
        (embedHits_pairwise texts cacheFn)
        (by rw [List.length_replicate]; exact hi)]
      rw [hv]
      rfl
    | none =>
      have hmm : (i, texts.get ⟨i, hi⟩) ∈ embedMisses texts cacheFn := by
        unfold embedMisses
        exact List.mem_filter.mpr ⟨henum, by simp only [hh]; rfl⟩
      have hmemp : (i, f (texts.get ⟨i, hi⟩))
          ∈ (embedMisses texts cacheFn).map (fun p => (p.1, f p.2)) :=
        List.mem_map.mpr ⟨(i, texts.get ⟨i, hi⟩), hmm, rfl⟩
      rw [scatter_get?_of_mem _ _ i (f (texts.get ⟨i, hi⟩)) hmemp
        ((List.pairwise_map).mpr
          ((embedMisses_pairwise texts cacheFn).imp (fun h => h)))
        (by rw [scatter_length, List.length_replicate]; exact hi)]
      rfl
  · have h1 : (scatter (scatter (List.replicate texts.length none)
        (embedHits texts cacheFn))
        ((embedMisses texts cacheFn).map (fun p => (p.1, f p.2)))).get? i
        = none := by
      rw [List.get?_eq_none]
      rw [hlen1]
      omega
    have h2 : (texts.map (fun t => some (f t))).get? i = none := by
      rw [List.get?_eq_none, List.length_map]
      omega
    rw [h1, h2]

/-- Witness for C5's amended theorem: one cached text and one miss, with
the provider answering the miss in request order, reassemble in input
order. -/
theorem embed_order_preservation_witness :
    embedAssemble ["a", "b"]
        (fun t => if t = "a" then some [(1:ℚ)] else none)
        ((embedMisses ["a", "b"]
            (fun t => if t = "a" then some [(1:ℚ)] else none)).map
          (fun p => if p.2 = "a" then [(1:ℚ)] else [(2:ℚ)]))
      = [some [(1:ℚ)], some [(2:ℚ)]] := by
  have hcache : ∀ (t : String) (v : List ℚ),
      (fun t => if t = "a" then some [(1:ℚ)] else none) t = some v →
      v = (fun t => if t = "a" then [(1:ℚ)] else [(2:ℚ)]) t := by
    intro t v h
    simp only at h ⊢
    by_cases ht : t = "a"
    · subst ht
      rw [if_pos rfl] at h ⊢
      exact (Option.some_inj.mp h).symm
    · rw [if_neg ht] at h
      cases h
  exact (embed_order_preservation ["a", "b"]
    (fun t => if t = "a" then [(1:ℚ)] else [(2:ℚ)])
    (fun t => if t = "a" then some [(1:ℚ)] else none) hcache).trans (by decide)

/-- Counterexample for C5 as stated: with two uncached texts whose true
embeddings are [1] and [2], a provider response carrying those embeddings in
the opposite internal order is consumed in list position order (the source
never consults the response index field), so the output pairs vectors with
the wrong texts. -/
theorem embed_order_counterexample :
    List.Perm [[(2:ℚ)], [(1:ℚ)]]
      ((embedMisses ["a", "b"] (fun _ => none)).map
        (fun p => if p.2 = "a" then [(1:ℚ)] else [(2:ℚ)])) ∧
    embedAssemble ["a", "b"] (fun _ => none) [[(2:ℚ)], [(1:ℚ)]]
      ≠ ["a", "b"].map
          (fun t => some (if t = "a" then [(1:ℚ)] else [(2:ℚ)])) := by
  constructor
  · decide
  · decide


end Scorpius
